import Mathlib

/-!
Shallow embedding of the job-tracking service (controllers/jobs.js and
controllers/auth.js) over an in-memory document store modelled as a list of
records. Request parameters arrive loosely typed, as in the JavaScript
source; machine coercions (JavaScript Number truthiness, MongoDB query
semantics) are modelled explicitly.
-/

namespace JobsApp

/-- A JavaScript number as it comes out of `Number(x)` applied to a request
parameter: either NaN (x absent or non-numeric) or a numeric value. The
embedding covers integral numeric inputs. -/
inductive JSNum where
  | nan : JSNum
  | num : Int → JSNum
deriving DecidableEq

/-- JavaScript `v || d` for `v = Number(x)`: NaN and 0 are falsy and fall
back to the default; every other number, negative values included, passes
through. -/
def jsOr : JSNum → Int → Int
  | .nan, d => d
  | .num n, d => if n = 0 then d else n

/-- A creation timestamp, at the granularity the engine inspects: year,
month (1..12 as produced by the $month aggregation operator), and a
sub-month component standing for the rest of the instant. Two timestamps
compare lexicographically. -/
structure DateT where
  year : Nat
  month : Nat
  sub : Nat
deriving DecidableEq

/-- Timestamp order: lexicographic on (year, month, sub). -/
def DateT.le (a b : DateT) : Prop :=
  a.year < b.year ∨ (a.year = b.year ∧
    (a.month < b.month ∨ (a.month = b.month ∧ a.sub ≤ b.sub)))

instance : DecidableRel DateT.le := fun a b => by
  unfold DateT.le; infer_instance

theorem DateT.le_total (a b : DateT) : DateT.le a b ∨ DateT.le b a := by
  unfold DateT.le; omega

theorem DateT.le_trans {a b c : DateT} (h1 : DateT.le a b) (h2 : DateT.le b c) :
    DateT.le a c := by
  unfold DateT.le at *; omega

/-- A job record as stored (models/Job schema fields the engine reads). -/
structure Job where
  id : Nat
  company : String
  position : String
  status : String
  jobType : String
  createdBy : Nat
  createdAt : DateT
deriving DecidableEq

/-- The raw query parameters of a getAllJobs request (`req.query`). Absent
parameters are `none`; `page` and `limit` are given after the JavaScript
`Number` coercion (absent or non-numeric input is NaN). -/
structure QueryParams where
  search : Option String
  status : Option String
  jobType : Option String
  sort : Option String
  page : JSNum
  limit : JSNum

/-- The Mongo query object built by getAllJobs: always the owner scope,
optionally a case-insensitive regex constraint on position and equality
constraints on status and jobType. -/
structure QueryObject where
  createdBy : Nat
  position : Option String
  status : Option String
  jobType : Option String

/-- The characters the PCRE engine behind MongoDB `$regex` treats
specially (metacharacters): a pattern free of all of them is matched
purely literally. -/
def regexMeta (c : Char) : Bool :=
  c == '.' || c == '*' || c == '+' || c == '?' || c == '[' || c == ']' ||
  c == '(' || c == ')' || c == '\x7b' || c == '\x7d' || c == '|' || c == '\\' ||
  c == '^' || c == '$'

/-- One step of regex matching for the pattern fragment the embedding
implements — literal characters plus the dot wildcard — case-insensitively:
a dot matches any character, anything else matches up to ASCII case.
MongoDB evaluates `$regex` as full PCRE; the search-filter theorem below
invokes this model only on patterns with no metacharacter at all, where
PCRE matching is literal matching and the fragment is exact, and the
counterexample uses only the dot wildcard. -/
def patCharMatch (p c : Char) : Bool :=
  p == '.' || p.toLower == c.toLower

/-- Anchored-at-front match of a pattern against a string (both as char
lists): every pattern character must match the corresponding text
character. -/
def matchHere : List Char → List Char → Bool
  | [], _ => true
  | _ :: _, [] => false
  | p :: ps, c :: cs => patCharMatch p c && matchHere ps cs

/-- Unanchored regex search, as MongoDB `$regex` performs it: the pattern
may match starting at any position of the text. -/
def regexSearch : List Char → List Char → Bool
  | pat, [] => matchHere pat []
  | pat, c :: cs => matchHere pat (c :: cs) || regexSearch pat cs

/-- `{ $regex: pat, $options: "i" }` applied to a string field, for
patterns in the literal-and-dot fragment; exact for patterns containing no
regexMeta character, where PCRE matching degenerates to literal
case-insensitive search. -/
def regexMatchI (pat s : String) : Bool :=
  regexSearch pat.data s.data

/-- Whether a record satisfies the query object (Mongo find filter). -/
def matchesQuery (q : QueryObject) (j : Job) : Bool :=
  j.createdBy == q.createdBy
  && (match q.position with
      | none => true
      | some pat => regexMatchI pat j.position)
  && (match q.status with
      | none => true
      | some s => j.status == s)
  && (match q.jobType with
      | none => true
      | some t => j.jobType == t)

/-- getAllJobs filter construction: owner scope always; `if (search)` adds
the regex constraint when search is present and non-empty (the empty string
is falsy); `if (status && status !== "all")` adds an equality constraint
when status is present, non-empty (truthy) and not the sentinel "all", and
jobType likewise. -/
def buildQueryObject (userId : Nat) (p : QueryParams) : QueryObject :=
  { createdBy := userId
    position := match p.search with
      | some s => if s = "" then none else some s
      | none => none
    status := match p.status with
      | some s => if s = "" ∨ s = "all" then none else some s
      | none => none
    jobType := match p.jobType with
      | some t => if t = "" ∨ t = "all" then none else some t
      | none => none }

/-- Sort relation for `sort("-createdAt")`: newest first. -/
def latestRel (a b : Job) : Prop := DateT.le b.createdAt a.createdAt

/-- Sort relation for `sort("createdAt")`: oldest first. -/
def oldestRel (a b : Job) : Prop := DateT.le a.createdAt b.createdAt

/-- Sort relation for `sort("position")`: position ascending. -/
def azRel (a b : Job) : Prop := a.position ≤ b.position

/-- Sort relation for `sort("-position")`: position descending. -/
def zaRel (a b : Job) : Prop := b.position ≤ a.position

instance : DecidableRel latestRel := fun a b => by unfold latestRel; infer_instance
instance : DecidableRel oldestRel := fun a b => by unfold oldestRel; infer_instance
instance : DecidableRel azRel := fun a b => by unfold azRel; infer_instance
instance : DecidableRel zaRel := fun a b => by unfold zaRel; infer_instance

instance : IsTotal Job latestRel := ⟨fun a b => DateT.le_total b.createdAt a.createdAt⟩
instance : IsTrans Job latestRel := ⟨fun _ _ _ h1 h2 => DateT.le_trans h2 h1⟩
instance : IsTotal Job oldestRel := ⟨fun a b => DateT.le_total a.createdAt b.createdAt⟩
instance : IsTrans Job oldestRel := ⟨fun _ _ _ h1 h2 => DateT.le_trans h1 h2⟩
instance : IsTotal Job azRel := ⟨fun a b => le_total a.position b.position⟩
instance : IsTrans Job azRel := ⟨fun _ _ _ h1 h2 => le_trans h1 h2⟩
instance : IsTotal Job zaRel := ⟨fun a b => le_total b.position a.position⟩
instance : IsTrans Job zaRel := ⟨fun _ _ _ h1 h2 => le_trans h2 h1⟩

/-- The sort chain of getAllJobs: each of the four recognized sort keys
reorders the result (the store sort is modelled as a stable sort by the
requested field and direction); any other value, the absent value included,
chains no sort, so the records keep their store order. -/
def applySort (sort : Option String) (l : List Job) : List Job :=
  if sort = some "latest" then l.insertionSort latestRel
  else if sort = some "oldest" then l.insertionSort oldestRel
  else if sort = some "a-z" then l.insertionSort azRel
  else if sort = some "z-a" then l.insertionSort zaRel
  else l

/-- `Math.ceil(t / l)` for natural t and positive l. -/
def mathCeilDiv (t l : Nat) : Nat := (t + l - 1) / l

/-- The JSON body getAllJobs responds with. -/
structure JobsResponse where
  jobs : List Job
  totalJobs : Nat
  numOfPages : Nat
deriving DecidableEq

/-- getAllJobs over a store state `db` (records in natural store order):
build the query object, filter, chain the sort, coerce page and limit with
`Number(x) || default`, window with skip and limit, count the matching
documents with a second query, and derive the page count. The store rejects
a negative skip and treats limit 0 as unbounded, so the windowing theorems
below restrict to coerced page and limit at least 1. -/
def getAllJobs (db : List Job) (userId : Nat) (p : QueryParams) : JobsResponse :=
  let queryObject := buildQueryObject userId p
  let page := jsOr p.page 1
  let limit := jsOr p.limit 10
  let skip := (page - 1) * limit
  let jobs := ((applySort p.sort (db.filter (matchesQuery queryObject))).drop skip.toNat).take limit.toNat
  let totalJobs := (db.filter (matchesQuery queryObject)).length
  ⟨jobs, totalJobs, mathCeilDiv totalJobs limit.toNat⟩

/-- The request body of a create request: the record fields plus whatever
`createdBy` the client chose to supply. -/
structure JobBody where
  company : String
  position : String
  status : String
  jobType : String
  createdBy : Option Nat

/-- createJob: the line `req.body.createdBy = req.user.userId` overwrites
any client-supplied owner before `Job.create(req.body)`; the store assigns
the identifier and the creation timestamp. -/
def createJob (userId : Nat) (body : JobBody) (newId : Nat) (ts : DateT) : Job :=
  { id := newId
    company := body.company
    position := body.position
    status := body.status
    jobType := body.jobType
    createdBy := userId
    createdAt := ts }

/-- The request body of an update request (`req.body`): every field is
optional, absent fields are left unchanged by the Mongo update. -/
structure UpdateBody where
  company : Option String
  position : Option String
  status : Option String
  jobType : Option String
deriving DecidableEq

/-- The errors the controllers surface. -/
inductive AppError where
  | badRequest : String → AppError
  | notFound : String → AppError
  | unauthenticated : String → AppError
deriving DecidableEq

/-- Apply a Mongo `$set`-style update document to a record: a field present
in the body replaces the stored value, an absent field keeps it. -/
def applyUpdate (body : UpdateBody) (j : Job) : Job :=
  { j with
    company := body.company.getD j.company
    position := body.position.getD j.position
    status := body.status.getD j.status
    jobType := body.jobType.getD j.jobType }

/-- Mongoose `Model.findByIdAndUpdate(id, update, { new: true })`, which is
`findOneAndUpdate({ _id: id }, ...)`. The source passes the object
`{ _id: jobId, createdBy: userId }` as `id`; casting that object at the
`_id` path extracts its `_id` property and discards every other key
(mongoose lib/cast/objectid.js: an object with an `_id` property casts to
that property), so the executed filter is `{ _id: jobId }` alone — the
`createdBy` condition never reaches the store. Updates the first record
with the given id and returns the post-update record together with the new
store state, or `none` when no record has that id. -/
def findByIdAndUpdate (db : List Job) (jobId : Nat) (body : UpdateBody) :
    Option (Job × List Job) :=
  match db with
  | [] => none
  | j :: rest =>
    if j.id = jobId then
      some (applyUpdate body j, applyUpdate body j :: rest)
    else
      (findByIdAndUpdate rest jobId body).map fun r => (r.1, j :: r.2)

/-- updateJob: reject with a BadRequestError when `company` or `position`
is present and equal to the empty string (strict equality, so an absent
field does not trigger the check); otherwise run findByIdAndUpdate and
signal NotFoundError when it matches nothing. On success the response
carries the post-update record; the second component is the store state
after the request. -/
def updateJob (db : List Job) (userId : Nat) (jobId : Nat) (body : UpdateBody) :
    Except AppError (Job × List Job) :=
  if body.company = some "" ∨ body.position = some "" then
    .error (.badRequest "Company or Position fields cannot be empty")
  else
    match findByIdAndUpdate db jobId body with
    | some r => .ok r
    | none => .error (.notFound ("No job with id " ++ toString jobId))

/-- The store state left behind by an updateJob request: unchanged whenever
the request errors. -/
def updateJobState (db : List Job) (userId : Nat) (jobId : Nat) (body : UpdateBody) :
    List Job :=
  match updateJob db userId jobId body with
  | .ok r => r.2
  | .error _ => db

/-- The per-group output of the status aggregation and of the monthly
aggregation: a group key and the $sum count of the group. -/
def groupCounts {α κ : Type} [DecidableEq α] [DecidableEq κ]
    (key : α → κ) (l : List α) : List (κ × Nat) :=
  (l.map key).dedup.map fun k => (k, (l.filter fun a => key a = k).length)

/-- Reading one bucket out of the object the `reduce` over the grouped
stats builds: `stats[title] || 0` — the count of the group with that key,
or 0 when no group has it. -/
def lookupCount {κ : Type} [DecidableEq κ] (k : κ) (m : List (κ × Nat)) : Nat :=
  match m.find? fun p => p.1 = k with
  | some p => p.2
  | none => 0

/-- The fixed-shape status report sent to the client. -/
structure StatsReport where
  pending : Nat
  interview : Nat
  declined : Nat
deriving DecidableEq

/-- The defaultStats computation of showStats: aggregate the caller's
records grouped by status with a count per group, fold the groups into an
object, and read the three known buckets out of it with `|| 0`; any other
status group is never read. -/
def defaultStats (db : List Job) (userId : Nat) : StatsReport :=
  let stats := groupCounts (fun j => j.status) (db.filter fun j => j.createdBy = userId)
  { pending := lookupCount "pending" stats
    interview := lookupCount "interview" stats
    declined := lookupCount "declined" stats }

/-- Descending order on (year, month) group keys, as the aggregation stage
`$sort: { "_id.year": -1, "_id.month": -1 }` arranges the groups. -/
def ymDescRel (a b : Nat × Nat) : Prop :=
  b.1 < a.1 ∨ (b.1 = a.1 ∧ b.2 ≤ a.2)

instance : DecidableRel ymDescRel := fun a b => by unfold ymDescRel; infer_instance

instance : IsTotal (Nat × Nat) ymDescRel := ⟨fun a b => by unfold ymDescRel; omega⟩

instance : IsTrans (Nat × Nat) ymDescRel := ⟨fun a b c h1 h2 => by
  unfold ymDescRel at *; omega⟩

/-- Descending order lifted to (key, count) group records: the $sort stage
compares only the group key. -/
def groupDescRel (a b : (Nat × Nat) × Nat) : Prop := ymDescRel a.1 b.1

instance : DecidableRel groupDescRel := fun a b => by unfold groupDescRel; infer_instance

instance : IsTotal ((Nat × Nat) × Nat) groupDescRel :=
  ⟨fun a b => IsTotal.total (r := ymDescRel) a.1 b.1⟩

instance : IsTrans ((Nat × Nat) × Nat) groupDescRel :=
  ⟨fun _ _ _ h1 h2 => IsTrans.trans (r := ymDescRel) _ _ _ h1 h2⟩

/-- The abbreviated English month name moment produces for "MMM" from a
1-based month number ($month output). -/
def monthAbbrev : Nat → String
  | 1 => "Jan"
  | 2 => "Feb"
  | 3 => "Mar"
  | 4 => "Apr"
  | 5 => "May"
  | 6 => "Jun"
  | 7 => "Jul"
  | 8 => "Aug"
  | 9 => "Sep"
  | 10 => "Oct"
  | 11 => "Nov"
  | 12 => "Dec"
  | _ => "Invalid date"

/-- One entry of the monthly trend sent to the client. -/
structure TrendEntry where
  date : String
  count : Nat
deriving DecidableEq

/-- `moment().month(month - 1).year(year).format("MMM Y")`: the
abbreviated month name followed by the full year. -/
def formatMonthYear (year month : Nat) : String :=
  monthAbbrev month ++ " " ++ toString year

/-- The monthlyApplications computation of showStats: aggregate the
caller's records grouped by (year, month) of createdAt with a count per
group, sort the groups by year descending then month descending, keep the
first six, then map each group to its display entry and reverse the list
to chronological order. -/
def monthlyApplications (db : List Job) (userId : Nat) : List TrendEntry :=
  ((((groupCounts (fun j => (j.createdAt.year, j.createdAt.month))
      (db.filter fun j => j.createdBy = userId)).insertionSort groupDescRel).take 6).map
    (fun g => (⟨formatMonthYear g.1.1 g.1.2, g.2⟩ : TrendEntry))).reverse

/-- A registered user as the login controller reads it: the unique login
email and the stored credential. comparePassword (a bcrypt comparison on
the User model) is passed in as an oracle by the login embedding. -/
structure UserT where
  email : String
  password : String
deriving DecidableEq

/-- login: reject with BadRequestError when email or password is falsy
(absent input is modelled as the empty string, the other falsy value);
look the user up by email and throw UnauthenticatedError with the message
"Invalid Credentials" when no user matches; compare the password and throw
UnauthenticatedError with the same message when the comparison fails;
otherwise succeed with the matched user. -/
def login (users : List UserT) (checkPassword : UserT → String → Bool)
    (email password : String) : Except AppError UserT :=
  if email = "" ∨ password = "" then
    .error (.badRequest "Please provide email and password")
  else
    match users.find? fun u => u.email = email with
    | none => .error (.unauthenticated "Invalid Credentials")
    | some u =>
      if checkPassword u password then .ok u
      else .error (.unauthenticated "Invalid Credentials")

/-! ## Specification-side definitions

Definitions written after the wording of the specification, used to compare
the embedded code against the spec (refinement claims). -/

/-- Case-insensitive character equality, written after the spec notion of
a case-insensitive substring. -/
def charEqCI (p c : Char) : Bool := p.toLower == c.toLower

/-- The needle is a case-insensitive prefix of the haystack. -/
def subHere : List Char → List Char → Bool
  | [], _ => true
  | _ :: _, [] => false
  | p :: ps, c :: cs => charEqCI p c && subHere ps cs

/-- The needle occurs case-insensitively somewhere in the haystack. -/
def substrCI : List Char → List Char → Bool
  | pat, [] => subHere pat []
  | pat, c :: cs => subHere pat (c :: cs) || substrCI pat cs

/-- Spec wording for the search filter: the position contains the search
text as a case-insensitive substring. -/
def containsCI (hay needle : String) : Bool := substrCI needle.data hay.data

/-- Spec wording for the status report: the number of records of the user
with the given status. -/
def countStatus (db : List Job) (userId : Nat) (s : String) : Nat :=
  (db.filter fun j => j.createdBy = userId ∧ j.status = s).length

/-- The records of one user, in store order. -/
def userJobs (db : List Job) (userId : Nat) : List Job :=
  db.filter fun j => j.createdBy = userId

/-- The (year, month) time bucket of a record. -/
def bucketKey (j : Job) : Nat × Nat := (j.createdAt.year, j.createdAt.month)

/-- The distinct time buckets holding at least one record of the user. -/
def bucketKeys (db : List Job) (userId : Nat) : List (Nat × Nat) :=
  ((userJobs db userId).map bucketKey).dedup

/-- The number of records of the user inside one time bucket. -/
def bucketCount (db : List Job) (userId : Nat) (k : Nat × Nat) : Nat :=
  ((userJobs db userId).filter fun j => bucketKey j = k).length

/-- Strictly-earlier order on time buckets. -/
def ymLT (a b : Nat × Nat) : Prop := a.1 < b.1 ∨ (a.1 = b.1 ∧ a.2 < b.2)

instance : DecidableRel ymLT := fun a b => by unfold ymLT; infer_instance

/-- Sample values used by concrete witnesses and counterexamples. -/
def sampleDate (m : Nat) : DateT := ⟨2024, m, 0⟩

def sampleJob (i uid : Nat) (pos st : String) (m : Nat) : Job :=
  ⟨i, "Acme", pos, st, "full-time", uid, sampleDate m⟩

def noParams : QueryParams := ⟨none, none, none, none, .nan, .nan⟩

def sampleUser : UserT := ⟨"a@b.c", "hunter2"⟩

/-! ## Helper lemmas -/

theorem applySort_perm (s : Option String) (l : List Job) : List.Perm (applySort s l) l := by
  unfold applySort
  split_ifs <;> first | exact List.perm_insertionSort _ _ | exact List.Perm.refl _

theorem mem_applySort {s : Option String} {l : List Job} {j : Job} :
    j ∈ applySort s l ↔ j ∈ l :=
  (applySort_perm s l).mem_iff

end JobsApp

namespace JobsApp

/-- C1: every record the job query returns is owned by the requesting
user, and a created record is owned by the authenticated caller no matter
what createdBy the request body carried. -/
theorem ownerScoping :
    (∀ (db : List Job) (userId : Nat) (p : QueryParams) (j : Job),
        j ∈ (getAllJobs db userId p).jobs → j.createdBy = userId) ∧
    (∀ (userId : Nat) (body : JobBody) (newId : Nat) (ts : DateT),
        (createJob userId body newId ts).createdBy = userId) := by
  constructor
  · intro db userId p j hj
    have h1 : j ∈ applySort p.sort (db.filter (matchesQuery (buildQueryObject userId p))) :=
      List.mem_of_mem_drop (List.mem_of_mem_take hj)
    have h2 : j ∈ db.filter (matchesQuery (buildQueryObject userId p)) :=
      mem_applySort.mp h1
    have h3 := (List.mem_filter.mp h2).2
    simp only [matchesQuery, buildQueryObject, Bool.and_eq_true, beq_iff_eq] at h3
    exact h3.1.1.1
  · intro userId body newId ts
    rfl

/-- C1 witness: a concrete query returning a record of user 7. -/
theorem ownerScoping_witness :
    sampleJob 1 7 "dev" "pending" 1 ∈ (getAllJobs [sampleJob 1 7 "dev" "pending" 1] 7 noParams).jobs ∧
    (sampleJob 1 7 "dev" "pending" 1).createdBy = 7 :=
  ⟨by decide, ownerScoping.1 [sampleJob 1 7 "dev" "pending" 1] 7 noParams _ (by decide)⟩

/-- C3 counterexample: the numeric value -2 is no greater than 0, yet
`Number(x) || default` passes it through instead of falling back to the
default page 1 or limit 10. -/
theorem paginationCoercion_counterexample :
    (-2 : Int) ≤ 0 ∧ jsOr (JSNum.num (-2)) 1 ≠ 1 ∧ jsOr (JSNum.num (-2)) 10 ≠ 10 := by
  decide

/-- C3 amended: a page or limit value that is non-numeric (NaN) or zero is
silently replaced by the default (1 and 10 respectively) and the request
is processed exactly as with explicit defaults, but a nonzero numeric
value — negative values included — passes through uncoerced. -/
theorem paginationCoercion (db : List Job) (userId : Nat) (p : QueryParams)
    (n : Int) (hn : n ≠ 0) :
    jsOr .nan 1 = 1 ∧ jsOr (.num 0) 1 = 1 ∧
    jsOr .nan 10 = 10 ∧ jsOr (.num 0) 10 = 10 ∧
    jsOr (.num n) 1 = n ∧ jsOr (.num n) 10 = n ∧
    getAllJobs db userId { p with page := .nan, limit := .nan } =
      getAllJobs db userId { p with page := .num 1, limit := .num 10 } ∧
    getAllJobs db userId { p with page := .num 0, limit := .num 0 } =
      getAllJobs db userId { p with page := .num 1, limit := .num 10 } := by
  refine ⟨rfl, by simp [jsOr], rfl, by simp [jsOr], by simp [jsOr, hn], by simp [jsOr, hn], ?_, ?_⟩ <;>
    simp [getAllJobs, jsOr, buildQueryObject]

/-- C3 witness: the coercion at the concrete value -2. -/
theorem paginationCoercion_witness :
    jsOr (JSNum.num (-2)) 1 = -2 ∧ jsOr (JSNum.num (-2)) 10 = -2 :=
  ⟨(paginationCoercion [] 0 noParams (-2) (by decide)).2.2.2.2.1,
   (paginationCoercion [] 0 noParams (-2) (by decide)).2.2.2.2.2.1⟩

/-- C2 counterexample: with two records of one user stored in ascending
createdAt order, the query without a sort parameter returns them in store
order, while sort=latest returns them newest first — the orderings
differ, so an absent sort value does not behave like `latest`. -/
theorem sortResolution_counterexample :
    (getAllJobs [sampleJob 1 1 "a" "pending" 1, sampleJob 2 1 "b" "pending" 2] 1 noParams).jobs ≠
      (getAllJobs [sampleJob 1 1 "a" "pending" 1, sampleJob 2 1 "b" "pending" 2] 1
        { noParams with sort := some "latest" }).jobs := by
  decide

/-- C2 amended: `latest` sorts by createdAt descending, `oldest` by
createdAt ascending, `a-z` by position ascending, `z-a` by position
descending (each a permutation of the filtered records); an absent or
unrecognized sort value chains no sort stage at all, so the records keep
their store order, which need not equal the `latest` ordering. -/
theorem sortResolution (l : List Job) (s : Option String) :
    List.Sorted latestRel (applySort (some "latest") l) ∧
    List.Perm (applySort (some "latest") l) l ∧
    List.Sorted oldestRel (applySort (some "oldest") l) ∧
    List.Perm (applySort (some "oldest") l) l ∧
    List.Sorted azRel (applySort (some "a-z") l) ∧
    List.Perm (applySort (some "a-z") l) l ∧
    List.Sorted zaRel (applySort (some "z-a") l) ∧
    List.Perm (applySort (some "z-a") l) l ∧
    (s ≠ some "latest" → s ≠ some "oldest" → s ≠ some "a-z" → s ≠ some "z-a" →
      applySort s l = l) := by
  have e1 : applySort (some "latest") l = l.insertionSort latestRel := by simp [applySort]
  have e2 : applySort (some "oldest") l = l.insertionSort oldestRel := by simp [applySort]
  have e3 : applySort (some "a-z") l = l.insertionSort azRel := by simp [applySort]
  have e4 : applySort (some "z-a") l = l.insertionSort zaRel := by simp [applySort]
  refine ⟨e1 ▸ List.sorted_insertionSort latestRel l, e1 ▸ List.perm_insertionSort latestRel l,
    e2 ▸ List.sorted_insertionSort oldestRel l, e2 ▸ List.perm_insertionSort oldestRel l,
    e3 ▸ List.sorted_insertionSort azRel l, e3 ▸ List.perm_insertionSort azRel l,
    e4 ▸ List.sorted_insertionSort zaRel l, e4 ▸ List.perm_insertionSort zaRel l, ?_⟩
  intro h1 h2 h3 h4
  simp [applySort, h1, h2, h3, h4]

/-- C2 witness: no sort key leaves a singleton list unchanged, and the
latest ordering of it is sorted. -/
theorem sortResolution_witness :
    applySort none [sampleJob 1 1 "a" "pending" 1] = [sampleJob 1 1 "a" "pending" 1] ∧
    List.Sorted latestRel (applySort (some "latest") [sampleJob 1 1 "a" "pending" 1]) :=
  ⟨(sortResolution [sampleJob 1 1 "a" "pending" 1] none).2.2.2.2.2.2.2.2
      (by decide) (by decide) (by decide) (by decide),
   (sortResolution [sampleJob 1 1 "a" "pending" 1] none).1⟩

/-- find? for an equality test returns the sought element exactly when it
is a member. -/
theorem find?_eq_mem {κ : Type} [DecidableEq κ] (k : κ) (ll : List κ) :
    ll.find? (fun x => x = k) = if k ∈ ll then some k else none := by
  induction ll with
  | nil => simp
  | cons x rest ih =>
    by_cases hx : x = k
    · subst hx
      rw [List.find?_cons_of_pos _ (by simp)]
      simp
    · rw [List.find?_cons_of_neg _ (by simp [hx]), ih]
      by_cases hk : k ∈ rest
      · simp [hk, hx]
      · simp [hk, hx, Ne.symm hx]

/-- Reading a bucket out of the reduced group object equals counting the
records with that key directly. -/
theorem lookupCount_groupCounts {α κ : Type} [DecidableEq α] [DecidableEq κ]
    (key : α → κ) (l : List α) (k : κ) :
    lookupCount k (groupCounts key l) = (l.filter fun a => key a = k).length := by
  unfold lookupCount groupCounts
  rw [List.find?_map]
  have hcomp : ((fun q : κ × Nat => decide (q.1 = k)) ∘
      (fun k' => (k', (l.filter fun a => key a = k').length))) = fun k' => decide (k' = k) := rfl
  rw [hcomp, find?_eq_mem]
  by_cases hk : k ∈ (l.map key).dedup
  · simp [hk]
  · have hnone : ∀ a ∈ l, ¬ (key a = k) := by
      intro a ha hak
      exact hk (List.mem_dedup.mpr (List.mem_map.mpr ⟨a, ha, hak⟩))
    simp only [hk, if_false]
    have : (l.filter fun a => key a = k) = [] := by
      rw [List.filter_eq_nil_iff]
      intro a ha
      simpa using hnone a ha
    simp [this]

/-- C7: the status report has exactly the three keys pending, interview
and declined, each equal to the count of the requesting user's records
with that status; records with any other status value do not appear; a
user with no records gets all three counts zero. -/
theorem statusReport (db : List Job) (userId : Nat) :
    defaultStats db userId =
      ⟨countStatus db userId "pending", countStatus db userId "interview",
        countStatus db userId "declined"⟩ ∧
    ((∀ j ∈ db, j.createdBy ≠ userId) → defaultStats db userId = ⟨0, 0, 0⟩) := by
  have key : ∀ s : String,
      ((db.filter fun j => j.createdBy = userId).filter fun j => j.status = s).length =
        countStatus db userId s := by
    intro s
    rw [List.filter_filter]
    unfold countStatus
    congr 1
    apply List.filter_congr
    intro j _
    by_cases h1 : j.createdBy = userId <;> by_cases h2 : j.status = s <;> simp [h1, h2]
  have hmain : defaultStats db userId =
      ⟨countStatus db userId "pending", countStatus db userId "interview",
        countStatus db userId "declined"⟩ := by
    simp only [defaultStats, lookupCount_groupCounts, key]
  refine ⟨hmain, fun hempty => ?_⟩
  rw [hmain]
  have hzero : ∀ s : String, countStatus db userId s = 0 := by
    intro s
    unfold countStatus
    have hnil : (db.filter fun j => j.createdBy = userId ∧ j.status = s) = [] := by
      rw [List.filter_eq_nil_iff]
      intro j hj
      simp only [decide_eq_true_eq, not_and]
      intro hcb
      exact absurd hcb (hempty j hj)
    rw [hnil]
    rfl
  rw [hzero, hzero, hzero]

/-- C7 witness: a store holding one record of another user yields the all
zero report for user 3, matching the per-status counts. -/
theorem statusReport_witness :
    defaultStats [sampleJob 1 2 "a" "pending" 1] 3 = ⟨0, 0, 0⟩ ∧
    defaultStats [sampleJob 1 2 "a" "pending" 1] 3 =
      ⟨countStatus [sampleJob 1 2 "a" "pending" 1] 3 "pending",
        countStatus [sampleJob 1 2 "a" "pending" 1] 3 "interview",
        countStatus [sampleJob 1 2 "a" "pending" 1] 3 "declined"⟩ :=
  ⟨(statusReport [sampleJob 1 2 "a" "pending" 1] 3).2 (by decide),
   (statusReport [sampleJob 1 2 "a" "pending" 1] 3).1⟩

/-- For a positive limit, mathCeilDiv is exactly the ceiling of the
division: the smallest page count whose pages cover all matches. -/
theorem mathCeilDiv_spec (t l : Nat) (hl : 1 ≤ l) :
    t ≤ mathCeilDiv t l * l ∧ mathCeilDiv t l * l < t + l ∧ (t = 0 → mathCeilDiv t l = 0) := by
  refine ⟨?_, ?_, ?_⟩
  · by_contra hcon
    push_neg at hcon
    have step : (mathCeilDiv t l + 1) * l ≤ t + l - 1 := by
      have h1 : mathCeilDiv t l * l + l ≤ t + l - 1 := by omega
      calc (mathCeilDiv t l + 1) * l = mathCeilDiv t l * l + l := by ring
        _ ≤ t + l - 1 := h1
    have h2 : mathCeilDiv t l + 1 ≤ (t + l - 1) / l :=
      (Nat.le_div_iff_mul_le (by omega)).mpr step
    unfold mathCeilDiv at h2
    omega
  · have h3 := Nat.div_mul_le_self (t + l - 1) l
    unfold mathCeilDiv
    omega
  · intro ht
    subst ht
    unfold mathCeilDiv
    simp only [Nat.zero_add]
    exact Nat.div_eq_of_lt (by omega)

/-- C4: the reported total is the number of records satisfying the filter,
unchanged by any choice of page and limit, and the reported page count is
the ceiling of total over limit — the least count of limit-sized pages
covering every match — equal to 0 when the total is 0. -/
theorem totalsAndPages (db : List Job) (userId : Nat) (p : QueryParams)
    (hl : 1 ≤ jsOr p.limit 10) :
    (getAllJobs db userId p).totalJobs =
      (db.filter (matchesQuery (buildQueryObject userId p))).length ∧
    (∀ pg lim : JSNum,
      (getAllJobs db userId { p with page := pg, limit := lim }).totalJobs =
        (getAllJobs db userId p).totalJobs) ∧
    (getAllJobs db userId p).totalJobs ≤
      (getAllJobs db userId p).numOfPages * (jsOr p.limit 10).toNat ∧
    (getAllJobs db userId p).numOfPages * (jsOr p.limit 10).toNat <
      (getAllJobs db userId p).totalJobs + (jsOr p.limit 10).toNat ∧
    ((getAllJobs db userId p).totalJobs = 0 → (getAllJobs db userId p).numOfPages = 0) := by
  have hL : 1 ≤ (jsOr p.limit 10).toNat := by omega
  obtain ⟨h1, h2, h3⟩ :=
    mathCeilDiv_spec (db.filter (matchesQuery (buildQueryObject userId p))).length
      (jsOr p.limit 10).toNat hL
  exact ⟨rfl, fun pg lim => rfl, h1, h2, h3⟩

/-- C4 witness: 25 matching records with limit 10 give 3 pages. -/
theorem totalsAndPages_witness :
    1 ≤ jsOr noParams.limit 10 ∧
    (getAllJobs (List.range 25 |>.map fun i => sampleJob i 4 "dev" "pending" 1) 4 noParams).totalJobs =
      25 ∧
    (getAllJobs (List.range 25 |>.map fun i => sampleJob i 4 "dev" "pending" 1) 4 noParams).totalJobs ≤
      (getAllJobs (List.range 25 |>.map fun i => sampleJob i 4 "dev" "pending" 1) 4 noParams).numOfPages *
        (jsOr noParams.limit 10).toNat :=
  ⟨by decide, by decide,
   (totalsAndPages (List.range 25 |>.map fun i => sampleJob i 4 "dev" "pending" 1) 4 noParams
      (by decide)).2.2.1⟩

/-- A take of a drop reads the window [k, k + n) of the underlying list. -/
theorem take_drop_getElem? {α : Type} (l : List α) (k n i : Nat) :
    ((l.drop k).take n)[i]? = if i < n then l[k + i]? else none := by
  by_cases h : i < n
  · rw [if_pos h, List.getElem?_take_of_lt h, List.getElem?_drop]
  · rw [if_neg h]
    apply List.getElem?_eq_none
    rw [List.length_take]
    omega

/-- C5: with coerced page and limit at least 1, the returned records are
exactly the window [skip, skip + limit) of the sorted filtered sequence,
skip = (page - 1) * limit: entry i of the response is entry skip + i of
the sequence for i < limit and nothing beyond; a page whose skip reaches
past the sequence yields the empty list, while the reported total and
page count do not depend on the requested page. -/
theorem paginationWindow (db : List Job) (userId : Nat) (p : QueryParams)
    (hp : 1 ≤ jsOr p.page 1) (hl : 1 ≤ jsOr p.limit 10) :
    (getAllJobs db userId p).jobs.length =
      min (jsOr p.limit 10).toNat
        ((applySort p.sort (db.filter (matchesQuery (buildQueryObject userId p)))).length -
          ((jsOr p.page 1).toNat - 1) * (jsOr p.limit 10).toNat) ∧
    (∀ i : Nat, (getAllJobs db userId p).jobs[i]? =
      if i < (jsOr p.limit 10).toNat then
        (applySort p.sort
          (db.filter (matchesQuery (buildQueryObject userId p))))[(((jsOr p.page 1).toNat - 1) * (jsOr p.limit 10).toNat) + i]?
      else none) ∧
    ((applySort p.sort (db.filter (matchesQuery (buildQueryObject userId p)))).length ≤
        ((jsOr p.page 1).toNat - 1) * (jsOr p.limit 10).toNat →
      (getAllJobs db userId p).jobs = []) ∧
    (∀ pg : JSNum,
      (getAllJobs db userId { p with page := pg }).totalJobs =
          (getAllJobs db userId p).totalJobs ∧
        (getAllJobs db userId p).numOfPages =
          (getAllJobs db userId { p with page := pg }).numOfPages) := by
  have hskip : ((jsOr p.page 1 - 1) * jsOr p.limit 10).toNat =
      ((jsOr p.page 1).toNat - 1) * (jsOr p.limit 10).toNat := by
    obtain ⟨pa, hpa⟩ : ∃ n : Nat, jsOr p.page 1 = (n : Int) :=
      ⟨(jsOr p.page 1).toNat, by omega⟩
    obtain ⟨lb, hlb⟩ : ∃ n : Nat, jsOr p.limit 10 = (n : Int) :=
      ⟨(jsOr p.limit 10).toNat, by omega⟩
    rw [hpa] at hp
    rw [hpa, hlb]
    rw [Int.toNat_natCast, Int.toNat_natCast,
      show ((pa : Int) - 1) = ((pa - 1 : Nat) : Int) by omega,
      ← Int.natCast_mul, Int.toNat_natCast]
  have hjobs : (getAllJobs db userId p).jobs =
      ((applySort p.sort (db.filter (matchesQuery (buildQueryObject userId p)))).drop
        (((jsOr p.page 1).toNat - 1) * (jsOr p.limit 10).toNat)).take (jsOr p.limit 10).toNat := by
    show ((applySort p.sort (db.filter (matchesQuery (buildQueryObject userId p)))).drop
        ((jsOr p.page 1 - 1) * jsOr p.limit 10).toNat).take (jsOr p.limit 10).toNat = _
    rw [hskip]
  refine ⟨?_, ?_, ?_, fun pg => ⟨rfl, rfl⟩⟩
  · rw [hjobs, List.length_take, List.length_drop]
  · intro i
    rw [hjobs, take_drop_getElem?]
  · intro hbeyond
    rw [hjobs, List.drop_eq_nil_of_le hbeyond, List.take_nil]

/-- C5 witness: 3 matching records, page 2, limit 2 — the response window
is entry 2 of the sorted sequence, and page 4 is past the end. -/
theorem paginationWindow_witness :
    (getAllJobs [sampleJob 1 4 "a" "pending" 1, sampleJob 2 4 "b" "pending" 2,
        sampleJob 3 4 "c" "pending" 3] 4
      { noParams with page := .num 2, limit := .num 2 }).jobs[0]? =
      (applySort none ([sampleJob 1 4 "a" "pending" 1, sampleJob 2 4 "b" "pending" 2,
        sampleJob 3 4 "c" "pending" 3].filter
          (matchesQuery (buildQueryObject 4
            { noParams with page := .num 2, limit := .num 2 }))))[2]? ∧
    (getAllJobs [sampleJob 1 4 "a" "pending" 1, sampleJob 2 4 "b" "pending" 2,
        sampleJob 3 4 "c" "pending" 3] 4
      { noParams with page := .num 4, limit := .num 2 }).jobs = [] := by
  constructor
  · have h := (paginationWindow [sampleJob 1 4 "a" "pending" 1, sampleJob 2 4 "b" "pending" 2,
        sampleJob 3 4 "c" "pending" 3] 4
      { noParams with page := .num 2, limit := .num 2 } (by decide) (by decide)).2.1 0
    simpa using h
  · exact (paginationWindow [sampleJob 1 4 "a" "pending" 1, sampleJob 2 4 "b" "pending" 2,
        sampleJob 3 4 "c" "pending" 3] 4
      { noParams with page := .num 4, limit := .num 2 } (by decide) (by decide)).2.2.1
      (by decide)

/-- On patterns without the dot wildcard, anchored regex matching is
case-insensitive prefix matching. -/
theorem matchHere_dotless : ∀ (ps cs : List Char), (∀ c ∈ ps, c ≠ '.') →
    matchHere ps cs = subHere ps cs := by
  intro ps
  induction ps with
  | nil => intro cs _; cases cs <;> rfl
  | cons p ps' ih =>
    intro cs h
    cases cs with
    | nil => rfl
    | cons c cs' =>
      have hp : p ≠ '.' := h p (by simp)
      have hps : ∀ x ∈ ps', x ≠ '.' := fun x hx => h x (by simp [hx])
      show (patCharMatch p c && matchHere ps' cs') = (charEqCI p c && subHere ps' cs')
      rw [ih cs' hps]
      congr 1
      have hfalse : (p == '.') = false := beq_eq_false_iff_ne.mpr hp
      simp [patCharMatch, charEqCI, hfalse]

/-- On patterns without the dot wildcard, unanchored regex search is
case-insensitive substring search. -/
theorem regexSearch_dotless (ps : List Char) (hdot : ∀ c ∈ ps, c ≠ '.') :
    ∀ cs, regexSearch ps cs = substrCI ps cs := by
  intro cs
  induction cs with
  | nil => exact matchHere_dotless ps [] hdot
  | cons c cs' ih =>
    show (matchHere ps (c :: cs') || regexSearch ps cs') =
      (subHere ps (c :: cs') || substrCI ps cs')
    rw [matchHere_dotless ps (c :: cs') hdot, ih]

/-- C6 counterexample: the search text goes to the store as a regular
expression, not as a literal: the pattern a.c matches the position abc
(the dot is a wildcard), so the record is retained although abc does not
contain a.c as a substring. -/
theorem searchFilter_counterexample :
    (getAllJobs [sampleJob 1 1 "abc" "pending" 1] 1
      { noParams with search := some "a.c" }).jobs = [sampleJob 1 1 "abc" "pending" 1] ∧
    containsCI "abc" "a.c" = false := by
  decide

/-- C6 amended: a present non-empty search value constrains position by a
case-insensitive regular expression match; on search text containing no
regex metacharacter (no regexMeta character, so PCRE matches it purely
literally) this is exactly case-insensitive substring containment, and
every record kept then has a position containing the search text; an
absent or empty search adds no position constraint. -/
theorem searchFilter (db : List Job) (userId : Nat) (p : QueryParams) :
    (∀ pat s : String, (∀ c ∈ pat.data, regexMeta c = false) →
      regexMatchI pat s = containsCI s pat) ∧
    (∀ s : String, p.search = some s → s ≠ "" → (∀ c ∈ s.data, regexMeta c = false) →
      ∀ j ∈ (getAllJobs db userId p).jobs, containsCI j.position s = true) ∧
    ((p.search = none ∨ p.search = some "") → (buildQueryObject userId p).position = none) := by
  have hnodot : ∀ (pat : String), (∀ c ∈ pat.data, regexMeta c = false) →
      ∀ c ∈ pat.data, c ≠ '.' := by
    intro pat hmeta c hc hceq
    have h1 := hmeta c hc
    rw [hceq] at h1
    exact absurd h1 (by decide)
  have hfrag : ∀ pat s : String, (∀ c ∈ pat.data, regexMeta c = false) →
      regexMatchI pat s = containsCI s pat := by
    intro pat s hmeta
    unfold regexMatchI containsCI
    exact regexSearch_dotless pat.data (hnodot pat hmeta) s.data
  refine ⟨hfrag, ?_, ?_⟩
  · intro s hs hne hmeta j hj
    have hmem : j ∈ db.filter (matchesQuery (buildQueryObject userId p)) :=
      mem_applySort.mp (List.mem_of_mem_drop (List.mem_of_mem_take hj))
    have hq := (List.mem_filter.mp hmem).2
    have hpos : (buildQueryObject userId p).position = some s := by
      simp [buildQueryObject, hs, hne]
    simp only [matchesQuery, hpos, Bool.and_eq_true] at hq
    have hregex : regexMatchI s j.position = true := hq.1.1.2
    rw [hfrag s j.position hmeta] at hregex
    exact hregex
  · intro h
    rcases h with h | h <;> simp [buildQueryObject, h]

/-- C6 witness: the metacharacter-free search text dev keeps a record
whose position contains dev case-insensitively. -/
theorem searchFilter_witness :
    containsCI (sampleJob 1 1 "Senior Dev" "pending" 1).position "dev" = true :=
  (searchFilter [sampleJob 1 1 "Senior Dev" "pending" 1] 1
      { noParams with search := some "dev" }).2.1 "dev" rfl (by decide) (by decide)
    (sampleJob 1 1 "Senior Dev" "pending" 1) (by decide)

/-- C9: evaluation of updateJob at the failing input. The record with id 1
belongs to user 1, yet the request of user 2 succeeds and mutates it,
because mongoose findByIdAndUpdate keeps only the `_id` key of the object
passed as its id argument — the owner condition never reaches the store.
The other two behaviors of the claim do hold: an empty company is rejected
with a validation failure leaving the store unchanged, and an id matching
no record yields NotFound. -/
theorem updateOwnerBypass :
    updateJob [sampleJob 1 1 "dev" "pending" 1] 2 1 ⟨some "NewCo", none, none, none⟩ =
      .ok ({ sampleJob 1 1 "dev" "pending" 1 with company := "NewCo" },
        [{ sampleJob 1 1 "dev" "pending" 1 with company := "NewCo" }]) ∧
    (sampleJob 1 1 "dev" "pending" 1).createdBy = 1 ∧ (1 : Nat) ≠ 2 ∧
    updateJob [sampleJob 1 1 "dev" "pending" 1] 1 1 ⟨some "", none, none, none⟩ =
      .error (.badRequest "Company or Position fields cannot be empty") ∧
    updateJobState [sampleJob 1 1 "dev" "pending" 1] 1 1 ⟨some "", none, none, none⟩ =
      [sampleJob 1 1 "dev" "pending" 1] ∧
    updateJob [sampleJob 1 1 "dev" "pending" 1] 1 99 ⟨some "NewCo", none, none, none⟩ =
      .error (.notFound ("No job with id " ++ toString 99)) :=
  ⟨rfl, rfl, by decide, rfl, rfl, rfl⟩

/-- Inserting a key-count group into a list of groups sorts by the key
alone, so it commutes with tagging keys by their counts. -/
theorem orderedInsert_map_pairKey (c : Nat × Nat → Nat) (a : Nat × Nat)
    (ll : List (Nat × Nat)) :
    List.orderedInsert groupDescRel (a, c a) (ll.map fun k => (k, c k)) =
      (List.orderedInsert ymDescRel a ll).map fun k => (k, c k) := by
  induction ll with
  | nil => rfl
  | cons b rest ih =>
    simp only [List.map_cons, List.orderedInsert]
    by_cases h : ymDescRel a b
    · rw [if_pos (show groupDescRel (a, c a) (b, c b) from h), if_pos h]
      simp
    · rw [if_neg (show ¬ groupDescRel (a, c a) (b, c b) from h), if_neg h]
      simp [ih]

/-- Sorting key-count groups by descending key equals sorting the keys and
tagging them afterwards. -/
theorem insertionSort_map_pairKey (c : Nat × Nat → Nat) (ll : List (Nat × Nat)) :
    (ll.map fun k => (k, c k)).insertionSort groupDescRel =
      (ll.insertionSort ymDescRel).map fun k => (k, c k) := by
  induction ll with
  | nil => rfl
  | cons a rest ih =>
    simp only [List.map_cons, List.insertionSort, ih]
    exact orderedInsert_map_pairKey c a _

theorem ymLT_irrefl (a : Nat × Nat) : ¬ ymLT a a := by unfold ymLT; omega

theorem ymLT_asymm {a b : Nat × Nat} (h : ymLT a b) : ¬ ymLT b a := by
  unfold ymLT at *; omega

/-- A list sorted under the descending key order and without duplicates is
strictly descending. -/
theorem pairwise_gt_of_sorted_nodup {s : List (Nat × Nat)}
    (hs : List.Pairwise ymDescRel s) (hnd : s.Nodup) :
    List.Pairwise (fun a b => ymLT b a) s := by
  refine (hs.and hnd).imp ?_
  intro a b hab
  obtain ⟨h1, h2⟩ := hab
  have h2' : ¬(a.1 = b.1 ∧ a.2 = b.2) := by
    intro hc
    exact h2 (Prod.ext hc.1 hc.2)
  unfold ymDescRel at h1
  unfold ymLT
  omega

/-- In a strictly descending list, an element lies among the first n
exactly when fewer than n elements exceed it. -/
theorem mem_take_strictDesc : ∀ (s : List (Nat × Nat)) (n : Nat) (k : Nat × Nat),
    List.Pairwise (fun a b => ymLT b a) s →
    (k ∈ s.take n ↔ k ∈ s ∧ (s.filter fun b => ymLT k b).length < n) := by
  intro s
  induction s with
  | nil => intro n k _; simp
  | cons a rest ih =>
    intro n k hp
    have hrest : List.Pairwise (fun x y => ymLT y x) rest := hp.of_cons
    have hgt : ∀ b ∈ rest, ymLT b a := (List.pairwise_cons.mp hp).1
    cases n with
    | zero => simp
    | succ n' =>
      rw [List.take_succ_cons]
      by_cases hk : k = a
      · subst hk
        have hfilter : ((k :: rest).filter fun b => ymLT k b) = [] := by
          rw [List.filter_eq_nil_iff]
          intro b hb
          simp only [decide_eq_true_eq]
          rcases List.mem_cons.mp hb with hb | hb
          · intro hcon
            rw [hb] at hcon
            exact ymLT_irrefl k hcon
          · exact ymLT_asymm (hgt b hb)
        simp [hfilter]
      · by_cases hkr : k ∈ rest
        · have hka : ymLT k a := hgt k hkr
          have hfilter : ((a :: rest).filter fun b => ymLT k b) =
              a :: (rest.filter fun b => ymLT k b) := by
            rw [List.filter_cons_of_pos (by simpa using hka)]
          rw [hfilter]
          simp only [List.mem_cons, hk, false_or, List.length_cons]
          rw [ih n' k hrest]
          constructor
          · rintro ⟨h1, h2⟩
            exact ⟨h1, by omega⟩
          · rintro ⟨h1, h2⟩
            exact ⟨h1, by omega⟩
        · constructor
          · intro hmem
            rcases List.mem_cons.mp hmem with h | h
            · exact absurd h hk
            · exact absurd (List.mem_of_mem_take h) hkr
          · rintro ⟨hmem, _⟩
            rcases List.mem_cons.mp hmem with h | h
            · exact absurd h hk
            · exact absurd h hkr

/-- C8: the monthly trend consists of the time buckets of the requesting
user that have fewer than six strictly more recent non-empty buckets —
i.e. the at most six most recent months with at least one record, months
without records skipped — presented strictly oldest-first, each labelled
with the abbreviated month name and full year and carrying the true
per-month record count; its length is the smaller of 6 and the number of
non-empty buckets, and a user with no records gets an empty list. -/
theorem monthlyTrend (db : List Job) (userId : Nat) :
    (∃ keys : List (Nat × Nat),
      monthlyApplications db userId =
        keys.map (fun k => ⟨formatMonthYear k.1 k.2, bucketCount db userId k⟩) ∧
      List.Pairwise ymLT keys ∧
      (∀ k, k ∈ keys ↔ k ∈ bucketKeys db userId ∧
        ((bucketKeys db userId).filter fun b => ymLT k b).length < 6) ∧
      (monthlyApplications db userId).length = min 6 (bucketKeys db userId).length) ∧
    (userJobs db userId = [] → monthlyApplications db userId = []) := by
  have hdesc : List.Pairwise (fun a b => ymLT b a)
      ((bucketKeys db userId).insertionSort ymDescRel) :=
    pairwise_gt_of_sorted_nodup
      (List.sorted_insertionSort ymDescRel (bucketKeys db userId))
      (((List.perm_insertionSort ymDescRel (bucketKeys db userId)).nodup_iff).mpr
        (List.nodup_dedup _))
  have hperm := List.perm_insertionSort ymDescRel (bucketKeys db userId)
  have hpipe : monthlyApplications db userId =
      ((((bucketKeys db userId).insertionSort ymDescRel).take 6).reverse).map
        (fun k => (⟨formatMonthYear k.1 k.2, bucketCount db userId k⟩ : TrendEntry)) := by
    unfold monthlyApplications
    rw [show groupCounts (fun j => (j.createdAt.year, j.createdAt.month))
          (db.filter fun j => j.createdBy = userId) =
        (bucketKeys db userId).map
          (fun k => (k, bucketCount db userId k)) from rfl]
    rw [insertionSort_map_pairKey, ← List.map_take, List.map_map, ← List.map_reverse]
    rfl
  constructor
  · refine ⟨(((bucketKeys db userId).insertionSort ymDescRel).take 6).reverse,
      hpipe, ?_, ?_, ?_⟩
    · rw [List.pairwise_reverse]
      exact List.Pairwise.sublist (List.take_sublist 6 _) hdesc
    · intro k
      rw [List.mem_reverse, mem_take_strictDesc _ 6 k hdesc, hperm.mem_iff,
        (hperm.filter fun b => ymLT k b).length_eq]
    · rw [hpipe, List.length_map, List.length_reverse, List.length_take, hperm.length_eq]
  · intro hempty
    have hempty' : (db.filter fun j => j.createdBy = userId) = [] := hempty
    simp [monthlyApplications, hempty', groupCounts]

/-- C8 witness: no records gives an empty trend; one record gives a
one-entry trend. -/
theorem monthlyTrend_witness :
    monthlyApplications ([] : List Job) 5 = [] ∧
    (monthlyApplications [sampleJob 1 5 "a" "pending" 1] 5).length = 1 :=
  ⟨(monthlyTrend [] 5).2 rfl, by
    obtain ⟨keys, h1, h2, h3, h4⟩ := (monthlyTrend [sampleJob 1 5 "a" "pending" 1] 5).1
    rw [h4]
    decide⟩

/-- C10: when the email matches no registered user, and when the email
matches but the password comparison fails, login produces the identical
UnauthenticatedError with message "Invalid Credentials", so the two
failures are indistinguishable to the caller. -/
theorem loginIndistinct (users : List UserT) (checkPassword : UserT → String → Bool)
    (e1 p1 e2 p2 : String) (u : UserT)
    (h1e : ¬ e1 = "") (h1p : ¬ p1 = "")
    (h2e : ¬ e2 = "") (h2p : ¬ p2 = "")
    (hnone : users.find? (fun v => v.email = e1) = none)
    (hsome : users.find? (fun v => v.email = e2) = some u)
    (hbad : checkPassword u p2 = false) :
    login users checkPassword e1 p1 = .error (.unauthenticated "Invalid Credentials") ∧
    login users checkPassword e2 p2 = .error (.unauthenticated "Invalid Credentials") ∧
    login users checkPassword e1 p1 = login users checkPassword e2 p2 := by
  have hc1 : ¬(e1 = "" ∨ p1 = "") := by simp [h1e, h1p]
  have hc2 : ¬(e2 = "" ∨ p2 = "") := by simp [h2e, h2p]
  simp [login, hc1, hc2, hnone, hsome, hbad]

/-- C10 witness: an unregistered email and a registered email with a wrong
password produce the same error. -/
theorem loginIndistinct_witness :
    login [sampleUser] (fun u p => u.password == p) "x@y.z" "pw" =
      .error (.unauthenticated "Invalid Credentials") ∧
    login [sampleUser] (fun u p => u.password == p) "a@b.c" "wrong" =
      .error (.unauthenticated "Invalid Credentials") :=
  ⟨(loginIndistinct [sampleUser] (fun u p => u.password == p) "x@y.z" "pw" "a@b.c" "wrong"
      sampleUser (by decide) (by decide) (by decide) (by decide) (by decide) (by decide)
      (by decide)).1,
   (loginIndistinct [sampleUser] (fun u p => u.password == p) "x@y.z" "pw" "a@b.c" "wrong"
      sampleUser (by decide) (by decide) (by decide) (by decide) (by decide) (by decide)
      (by decide)).2.1⟩

end JobsApp
